import Mathlib

/-!
# Verification of the maison streaming-sandbox core

Shallow embedding of `maison/sandbox.py` (class `MaisonSandbox`, class
`Maison`) together with proofs that settle the frozen claims about the
repository's specification.

Conventions:
* Python strings become `String` / `List Char`.
* `json.loads` is an external library call; the pipeline is parameterised
  by an arbitrary record parser `parse : String → Option R`, so every
  theorem about the line assembler holds for the real JSON decoder.
* Stateful methods become explicit state-passing functions that also
  return the list of remote calls they issue.
-/

/-! ## Character constants (written via code points to keep literals simple) -/

/-- The single-quote character `'`. -/
def sqC : Char := Char.ofNat 39

/-- The double-quote character `"`. -/
def dqC : Char := Char.ofNat 34

/-- The backtick character. -/
def btC : Char := Char.ofNat 96

/-- The backslash character. -/
def bsC : Char := Char.ofNat 92

/-- The newline character. -/
def nlC : Char := Char.ofNat 10

/-! ## `shlex.quote` (Python standard library), used by `MaisonSandbox.stream`

Python's `shlex.quote(s)` returns `''` for the empty string, returns `s`
unchanged when every character is safe (alphanumerics, underscore, and
the punctuation `@ % + = : , .` plus slash and dash),
and otherwise wraps `s` in single quotes after replacing every single
quote by the five characters `'"'"'`. -/

/-- One character is "safe" for `shlex.quote`: the ASCII regex class
alphanumerics and underscore (ASCII `\w`) together with `@ % + = : , .`, slash and dash. -/
def isSafeChar (c : Char) : Bool :=
  c.isAlpha || c.isDigit || c == '_' || c == '@' || c == '%' || c == '+' ||
    c == '=' || c == ':' || c == ',' || c == '.' || c == '/' || c == '-'

/-- The body of a single-quoted `shlex` token: every single quote in the
input is replaced by `'"'"'` (Python `s.replace("'", "'\"'\"'")`). -/
def quoteBody : List Char → List Char
  | [] => []
  | c :: cs => (if c = sqC then [sqC, dqC, sqC, dqC, sqC] else [c]) ++ quoteBody cs

/-- Embedding of Python's `shlex.quote`. -/
def shlexQuote (s : String) : String :=
  if s = "" then String.mk [sqC, sqC]
  else if s.toList.all isSafeChar then s
  else String.mk (sqC :: (quoteBody s.toList ++ [sqC]))

/-! ## The command builder of `MaisonSandbox.stream` (sandbox.py lines 84-99) -/

/-- The `optional_flags` string accumulated by `stream`: the
`--append-system-prompt` flag is added only when `instructions` is truthy
(non-`None` and non-empty), and `--continue` only when
`continue_conversation` is true. -/
def optionalFlags (instructions : Option String) (continueConversation : Bool) : String :=
  (match instructions with
   | some i => if i ≠ "" then " --append-system-prompt " ++ shlexQuote i else ""
   | none => "")
  ++ (if continueConversation then " --continue" else "")

/-- The shell command string rendered by `MaisonSandbox.stream`
(sandbox.py lines 84-99): the API key export, the `claude` invocation with
permission checks disabled, the shell-escaped prompt, the stream-json
output flags, and the optional flags.  Note that the source builds no
output redirection of any kind. -/
def buildCmd (apiKey prompt : String) (instructions : Option String)
    (continueConversation : Bool) : String :=
  "ANTHROPIC_API_KEY=" ++ shlexQuote apiKey
    ++ " claude --dangerously-skip-permissions -p " ++ shlexQuote prompt
    ++ " --output-format stream-json --include-partial-messages"
    ++ optionalFlags instructions continueConversation

/-- Does the first list lead the second one? -/
def leadsWith : List Char → List Char → Bool
  | [], _ => true
  | _ :: _, [] => false
  | a :: as, b :: bs => a == b && leadsWith as bs

/-- Substring test on character lists (used to state what a command does
or does not contain). -/
def hasSubstr (needle : List Char) : List Char → Bool
  | [] => needle.isEmpty
  | c :: rest => leadsWith needle (c :: rest) || hasSubstr needle rest

/-! ## A model of POSIX shell word splitting

`shSplit` splits a command string into its words, honouring single and
double quotes.  It is deliberately conservative: any character that could
alter the structure of the command when it appears unquoted — command
separators, pipes, redirections, substitution characters, escapes — makes
the split fail (`none`).  Hence `shSplit cmd = some ws` certifies that the
shell parses `cmd` as the single simple command with word list `ws`, with
no injected commands and no redirections. -/

/-- Characters that, unquoted, change the structure of a shell command. -/
abbrev isDanger (c : Char) : Prop :=
  c = ';' ∨ c = '&' ∨ c = '|' ∨ c = '<' ∨ c = '>' ∨ c = '(' ∨ c = ')' ∨
    c = '$' ∨ c = nlC ∨ c = bsC ∨ c = btC

/-- A character that the splitter consumes literally into the current
word: not a separator, not a quote, not dangerous. -/
abbrev plainChar (c : Char) : Prop :=
  c ≠ ' ' ∧ c ≠ sqC ∧ c ≠ dqC ∧ ¬ isDanger c

/-- Quoting state of the shell word splitter. -/
inductive QuoteMode
  | norm
  | single
  | double
deriving DecidableEq

/-- Shell word splitter.  The second argument is the word under
construction (`none` when between words). -/
def shSplit : QuoteMode → Option (List Char) → List Char → Option (List (List Char))
  | .norm, none, [] => some []
  | .norm, some w, [] => some [w]
  | .norm, cur, c :: rest =>
    if c = ' ' then
      match cur with
      | none => shSplit .norm none rest
      | some w => (shSplit .norm none rest).map (fun ws => w :: ws)
    else if c = sqC then shSplit .single (some (cur.getD [])) rest
    else if c = dqC then shSplit .double (some (cur.getD [])) rest
    else if isDanger c then none
    else shSplit .norm (some (cur.getD [] ++ [c])) rest
  | .single, _, [] => none
  | .single, cur, c :: rest =>
    if c = sqC then shSplit .norm cur rest
    else shSplit .single (some (cur.getD [] ++ [c])) rest
  | .double, _, [] => none
  | .double, cur, c :: rest =>
    if c = dqC then shSplit .norm cur rest
    else if c = '$' ∨ c = btC ∨ c = bsC then none
    else shSplit .double (some (cur.getD [] ++ [c])) rest

/-- Split a command string into shell words (`none` when the command does
not parse as one plain simple command). -/
def shellSplit (s : String) : Option (List String) :=
  (shSplit .norm none s.toList).map (fun ws => ws.map String.mk)

/-! ### Words made of literal and quoted pieces

A rendered command is a space-separated sequence of words; each word is a
concatenation of fixed literal pieces and `shlex`-quoted user input. -/

/-- One piece of a shell word: a fixed literal or a `shlex`-quoted string. -/
inductive Piece
  | lit (s : String)
  | quoted (s : String)

/-- The characters a word contributes to the command string. -/
def renderWord : List Piece → List Char
  | [] => []
  | .lit s :: rest => s.toList ++ renderWord rest
  | .quoted s :: rest => (shlexQuote s).toList ++ renderWord rest

/-- The value of the word once the shell removes the quoting. -/
def wordVal : List Piece → List Char
  | [] => []
  | .lit s :: rest => s.toList ++ wordVal rest
  | .quoted s :: rest => s.toList ++ wordVal rest

/-- Render a word list as a command string, separating words by single
spaces. -/
def renderCmd : List (List Piece) → List Char
  | [] => []
  | [w] => renderWord w
  | w :: ws => renderWord w ++ ' ' :: renderCmd ws

/-- Every character of a literal piece is plain. -/
def plainLit : Piece → Prop
  | .lit s => ∀ c ∈ s.toList, plainChar c
  | .quoted _ => True

instance (p : Piece) : Decidable (plainLit p) :=
  match p with
  | .lit s => inferInstanceAs (Decidable (∀ c ∈ s.toList, plainChar c))
  | .quoted _ => inferInstanceAs (Decidable True)

/-- A word whose rendering puts the splitter into in-word state: it starts
with a quoted piece or a non-empty literal. -/
def engages : List Piece → Prop
  | [] => False
  | .lit s :: _ => s ≠ ""
  | .quoted _ :: _ => True

instance (w : List Piece) : Decidable (engages w) :=
  match w with
  | [] => inferInstanceAs (Decidable False)
  | .lit s :: _ => inferInstanceAs (Decidable (s ≠ ""))
  | .quoted _ :: _ => inferInstanceAs (Decidable True)

/-! ### The words of the rendered `stream` command -/

/-- The words contributed by the optional instructions flag. -/
def instrWords : Option String → List (List Piece)
  | some i => if i ≠ "" then [[.lit "--append-system-prompt"], [.quoted i]] else []
  | none => []

/-- The words contributed by the continuation flag. -/
def contWords : Bool → List (List Piece)
  | true => [[.lit "--continue"]]
  | false => []

/-- The words of the command built by `MaisonSandbox.stream`, as literal
and quoted pieces. -/
def cmdWords (apiKey prompt : String) (instructions : Option String)
    (cont : Bool) : List (List Piece) :=
  [[.lit "ANTHROPIC_API_KEY=", .quoted apiKey],
   [.lit "claude"], [.lit "--dangerously-skip-permissions"], [.lit "-p"],
   [.quoted prompt],
   [.lit "--output-format"], [.lit "stream-json"],
   [.lit "--include-partial-messages"]]
  ++ instrWords instructions ++ contWords cont

/-- The word list the shell extracts from the rendered command: the exact
argument vector of the `claude` invocation, with the raw prompt,
instructions and credential as single words. -/
def expectedTokens (apiKey prompt : String) (instructions : Option String)
    (cont : Bool) : List String :=
  ["ANTHROPIC_API_KEY=" ++ apiKey, "claude", "--dangerously-skip-permissions",
   "-p", prompt, "--output-format", "stream-json", "--include-partial-messages"]
  ++ (match instructions with
      | some i => if i ≠ "" then ["--append-system-prompt", i] else []
      | none => [])
  ++ (if cont then ["--continue"] else [])

/-! ## The session manager `MaisonSandbox._ensure_session` (sandbox.py lines 52-57)

The Python method mutates `self._session_id` *before* awaiting
`create_session`, so an exception from the remote call propagates after
the identifier has already been stored. -/

instance {ε α : Type} [DecidableEq ε] [DecidableEq α] : DecidableEq (Except ε α)
  | .error x, .error y =>
    if h : x = y then isTrue (h ▸ rfl)
    else isFalse fun he => h (Except.error.inj he)
  | .error _, .ok _ => isFalse Except.noConfusion
  | .ok _, .error _ => isFalse Except.noConfusion
  | .ok x, .ok y =>
    if h : x = y then isTrue (h ▸ rfl)
    else isFalse fun he => h (Except.ok.inj he)

/-- Result of one `_ensure_session` call: the handle's `_session_id`
field after the call, the session identifiers passed to
`create_session` during the call, and the call's outcome (`error` when
`create_session` raised). -/
structure EnsureResult where
  sid : Option String
  createCalls : List String
  result : Except Unit String
deriving DecidableEq

/-- One `_ensure_session` call.  `sid` is the handle's current
`_session_id`, `fresh` the identifier that `uuid` would generate
(`maison-<8 hex>`), and `createRaises` tells whether the remote
`create_session` call raises. -/
def ensureSession (sid : Option String) (fresh : String) (createRaises : Bool) :
    EnsureResult :=
  match sid with
  | some s => ⟨some s, [], .ok s⟩
  | none =>
    if createRaises then ⟨some fresh, [fresh], .error ()⟩
    else ⟨some fresh, [fresh], .ok fresh⟩

/-- Iterate `_ensure_session` calls on one handle, threading the stored
identifier; returns the final identifier, all `create_session` calls
made, and each call's outcome. -/
def runEnsureCalls (sid : Option String) :
    List (String × Bool) → Option String × List String × List (Except Unit String)
  | [] => (sid, [], [])
  | (f, b) :: rest =>
    let r := ensureSession sid f b
    let t := runEnsureCalls r.sid rest
    (t.1, r.createCalls ++ t.2.1, r.result :: t.2.2)

/-! ## The line assembler `_parse_lines` (sandbox.py lines 111-124)

`_parse_lines` appends the new chunk to the residual buffer, repeatedly
splits off complete lines at the first newline, strips each line, skips
blank lines, feeds the rest to `json.loads`, silently drops lines that
fail to decode, and keeps the trailing newline-free remainder as the new
residual buffer.  The JSON decoder is external, so the pipeline is
parameterised by an arbitrary `parse : String → Option R`. -/

/-- Extract the complete (newline-terminated) lines from a character
stream; the second component is the remainder after the last newline
(the new residual buffer). -/
def extractLinesL : List Char → List (List Char) × List Char
  | [] => ([], [])
  | c :: cs =>
    let r := extractLinesL cs
    if c = nlC then ([] :: r.1, r.2)
    else
      match r.1 with
      | [] => ([], c :: r.2)
      | l :: t => ((c :: l) :: t, r.2)

/-- Python whitespace stripped by `str.strip()` (ASCII part). -/
def isPySpace (c : Char) : Bool :=
  c == ' ' || c == '\t' || c == nlC || c == Char.ofNat 13 ||
    c == Char.ofNat 11 || c == Char.ofNat 12

/-- Python `str.strip()`. -/
def pyStrip (s : String) : String :=
  String.mk (((s.toList.dropWhile isPySpace).reverse.dropWhile isPySpace).reverse)

/-- What one extracted line contributes: nothing when the stripped line
is blank or fails to decode, otherwise the decoded record
(`json.loads(stripped)` enqueued by `queue.put_nowait`). -/
def lineRecord {R : Type} (parse : String → Option R) (line : String) : Option R :=
  let stripped := pyStrip line
  if stripped = "" then none else parse stripped

/-- One `_parse_lines` call: records enqueued for this chunk, and the new
residual buffer. -/
def parseLinesL {R : Type} (parse : String → Option R) (residual chunk : List Char) :
    List R × List Char :=
  let e := extractLinesL (residual ++ chunk)
  (e.1.filterMap (fun l => lineRecord parse (String.mk l)), e.2)

/-- Feed successive stdout chunks through `_parse_lines`. -/
def runChunksL {R : Type} (parse : String → Option R) (residual : List Char) :
    List (List Char) → List R × List Char
  | [] => ([], residual)
  | c :: cs =>
    let x := parseLinesL parse residual c
    let y := runChunksL parse x.2 cs
    (x.1 ++ y.1, y.2)

/-- The records a `stream` call enqueues for a given sequence of stdout
chunks (the `_on_stdout` callback runs `_parse_lines` on each chunk as it
arrives, starting from an empty buffer). -/
def streamRecords {R : Type} (parse : String → Option R) (chunks : List String) :
    List R :=
  (runChunksL parse [] (chunks.map String.toList)).1

/-- The residual buffer left when the log stream completes (it is never
flushed: `stream` stops at the end-of-stream sentinel). -/
def streamResidual {R : Type} (parse : String → Option R) (chunks : List String) :
    String :=
  String.mk (runChunksL parse [] (chunks.map String.toList)).2

/-! ## Events (`StreamEvent`, sandbox.py lines 15-35 and 126-152)

`stream` turns every record dequeued before the end-of-stream sentinel
into a `StreamEvent` whose type is the record's `"type"` field (string
`"unknown"` when absent).  The `_on_stderr` callback ignores its data
(`pass`), so stderr text contributes nothing to the event sequence. -/

/-- A JSON scalar value (the fragment of JSON values the claims use). -/
inductive JVal
  | str (s : String)
  | num (n : Int)
  | boolean (b : Bool)
  | null
deriving DecidableEq

/-- A decoded JSON object: association list of fields. -/
abbrev JObj := List (String × JVal)

/-- Python `raw.get(key)`: the first binding of `key`, if any. -/
def jGet (raw : JObj) (key : String) : Option JVal :=
  (raw.find? (fun kv => kv.1 == key)).map (fun kv => kv.2)

/-- Embedding of the `StreamEvent` dataclass: the type tag and the full
payload. -/
structure StreamEventL where
  type : JVal
  data : JObj
deriving DecidableEq

/-- Event construction in the `stream` loop:
`StreamEvent(type=raw.get("type", "unknown"), data=raw)`. -/
def mkEvent (raw : JObj) : StreamEventL :=
  ⟨(jGet raw "type").getD (.str "unknown"), raw⟩

/-- The `_on_stderr` callback (sandbox.py lines 129-130): it ignores the
data (`pass`), contributing no events. -/
def onStderr (_data : String) : List StreamEventL := []

/-- The event sequence a `stream` call yields, given the stdout chunks
and the stderr chunks delivered by the log follower: every parsed stdout
record becomes one event, in order; stderr chunks pass through
`_on_stderr`, which produces nothing. -/
def streamEvents (parse : String → Option JObj)
    (stdoutChunks stderrChunks : List String) : List StreamEventL :=
  (streamRecords parse stdoutChunks).map mkEvent ++
    (stderrChunks.map onStderr).flatten

/-- A one-line JSON record with type tag `text` and content `hi`. -/
def demoLine : String :=
  "\x7b\"type\": \"text\", \"content\": \"hi\"\x7d"

/-- A concrete record parser standing in for `json.loads` on the single
demo line (used to evaluate the pipeline at concrete inputs). -/
def parseDemo (s : String) : Option JObj :=
  if s = demoLine then some [("type", .str "text"), ("content", .str "hi")]
  else none

/-! ## Remote calls issued by `MaisonSandbox.stream` (sandbox.py lines 82-140)

`stream` first awaits `_ensure_session`, then immediately executes the
built command in the session with `run_async=True`, then follows the
command's logs.  There is no other remote call: in particular no
`which`-style preflight check of any kind. -/

/-- One remote call made through the sandbox handle. -/
inductive RemoteCall
  | createSession (sessionId : String)
  | executeSessionCommand (sessionId : String) (command : String) (runAsync : Bool)
  | getSessionCommandLogs (sessionId : String) (cmdId : String)
deriving DecidableEq

/-- The ordered remote calls of one `stream` invocation (assuming
`create_session` succeeds, in which case `_ensure_session` returns the
stored or fresh identifier). -/
def streamRemoteCalls (sid : Option String) (freshSid : String)
    (apiKey prompt : String) (instructions : Option String)
    (continueConversation : Bool) (cmdId : String) : List RemoteCall :=
  let er := ensureSession sid freshSid false
  let s := match er.result with
    | .ok s => s
    | .error _ => freshSid
  (er.createCalls.map RemoteCall.createSession) ++
    [RemoteCall.executeSessionCommand s
        (buildCmd apiKey prompt instructions continueConversation) true,
     RemoteCall.getSessionCommandLogs s cmdId]

/-! ## Bootstrap (`Maison.create_sandbox_for_claude`, sandbox.py lines 166-223) -/

/-- Actions `create_sandbox_for_claude` performs on the provider, in
order. -/
inductive BootAction
  | createEnv
  | installCli
  | deleteEnv
deriving DecidableEq

/-- The errors `create_sandbox_for_claude` can raise. -/
inductive BootErr
  | missingApiKey
  | installFailed (output : String)
deriving DecidableEq

/-- Result of a bootstrap run: the provider actions in order, and either
the error raised or the API key stored on the returned handle. -/
structure BootstrapResult where
  actions : List BootAction
  outcome : Except BootErr String
deriving DecidableEq

/-- `api_key = anthropic_api_key or os.environ.get("ANTHROPIC_API_KEY", "")`:
Python `or` falls through on falsy values (`None` or `""`). -/
def resolveApiKey (anthropicApiKey : Option String) (envApiKey : String) : String :=
  match anthropicApiKey with
  | some k => if k = "" then envApiKey else k
  | none => envApiKey

/-- Embedding of `Maison.create_sandbox_for_claude`: validate the key,
create the environment, run the install command; on non-zero install exit
status delete the environment and raise `RuntimeError` with the captured
output, otherwise return the handle. -/
def createSandboxForClaude (anthropicApiKey : Option String) (envApiKey : String)
    (installExitCode : Int) (installResult : String) : BootstrapResult :=
  let apiKey := resolveApiKey anthropicApiKey envApiKey
  if apiKey = "" then ⟨[], .error .missingApiKey⟩
  else if installExitCode ≠ 0 then
    ⟨[.createEnv, .installCli, .deleteEnv], .error (.installFailed installResult)⟩
  else ⟨[.createEnv, .installCli], .ok apiKey⟩

/-! ## Helper parsers for concrete evaluations -/

/-- A parser accepting `"r1"` and `"r2"` only (stands for `json.loads`
on a stream with two valid records and arbitrary malformed lines). -/
def parseNum (s : String) : Option Nat :=
  if s = "r1" then some 1 else if s = "r2" then some 2 else none

/-- A parser accepting every line (stands for `json.loads` on a stream
where every line is a valid record). -/
def parseAll (s : String) : Option String := some s

/-! ## Theorems -/

/-! ### Step lemmas for the splitter -/

theorem shSplit_space (w : List Char) (rest : List Char) :
    shSplit .norm (some w) (' ' :: rest) =
      (shSplit .norm none rest).map (fun ws => w :: ws) := by
  simp [shSplit]

theorem shSplit_plain_step {c : Char} (h : plainChar c) (cur : Option (List Char))
    (rest : List Char) :
    shSplit .norm cur (c :: rest) = shSplit .norm (some (cur.getD [] ++ [c])) rest := by
  obtain ⟨h1, h2, h3, h4⟩ := h
  cases cur <;> simp [shSplit, h1, h2, h3, h4]

theorem shSplit_plainList (l : List Char) :
    ∀ w rest, (∀ c ∈ l, plainChar c) →
      shSplit .norm (some w) (l ++ rest) = shSplit .norm (some (w ++ l)) rest := by
  induction l with
  | nil => intro w rest _; simp
  | cons c l ih =>
    intro w rest h
    rw [List.cons_append, shSplit_plain_step (h c (by simp))]
    simp only [Option.getD_some]
    rw [ih (w ++ [c]) rest (fun d hd => h d (by simp [hd]))]
    simp

theorem shSplit_plainList_start (l : List Char) (h : ∀ c ∈ l, plainChar c)
    (hne : l ≠ []) (rest : List Char) :
    shSplit .norm none (l ++ rest) = shSplit .norm (some l) rest := by
  cases l with
  | nil => exact absurd rfl hne
  | cons c l =>
    rw [List.cons_append, shSplit_plain_step (h c (by simp))]
    simp only [Option.getD_none, List.nil_append]
    rw [shSplit_plainList l [c] rest (fun d hd => h d (by simp [hd]))]
    simp

theorem shSplit_quoteBody (cs : List Char) (w rest : List Char) :
    shSplit .single (some w) (quoteBody cs ++ rest) =
      shSplit .single (some (w ++ cs)) rest := by
  induction cs generalizing w with
  | nil => simp [quoteBody]
  | cons c cs ih =>
    by_cases hc : c = sqC
    · subst hc
      have expand : quoteBody (sqC :: cs) = sqC :: dqC :: sqC :: dqC :: sqC :: quoteBody cs := by
        simp [quoteBody]
      rw [expand, List.cons_append, List.cons_append, List.cons_append,
        List.cons_append, List.cons_append]
      have step : shSplit .single (some w)
            (sqC :: (dqC :: (sqC :: (dqC :: (sqC :: (quoteBody cs ++ rest)))))) =
          shSplit .single (some (w ++ [sqC])) (quoteBody cs ++ rest) := by
        simp +decide [shSplit]
      rw [step, ih]
      simp
    · have expand : quoteBody (c :: cs) = c :: quoteBody cs := by
        simp [quoteBody, hc]
      rw [expand, List.cons_append]
      have step : shSplit .single (some w) (c :: (quoteBody cs ++ rest)) =
          shSplit .single (some (w ++ [c])) (quoteBody cs ++ rest) := by
        simp +decide [shSplit, hc]
      rw [step, ih]
      simp

/-- If every character of `s` is `shlex`-safe then every character of `s`
is plain for the splitter: no safe character is a space, a quote, or a
dangerous character. -/
theorem plainChar_of_safe {c : Char} (h : isSafeChar c = true) : plainChar c := by
  have bad : ∀ d : Char, isSafeChar d = false → c ≠ d := by
    intro d hd he
    rw [he, hd] at h
    exact Bool.noConfusion h
  refine ⟨bad _ (by decide), bad _ (by decide), bad _ (by decide), ?_⟩
  intro hd
  rcases hd with he | he | he | he | he | he | he | he | he | he | he <;>
    exact bad _ (by decide) he

/-- Consuming `shlex.quote s` from word state `cur` appends exactly the
characters of `s` to the current word, whatever `s` is. -/
theorem shSplit_quote (s : String) (cur : Option (List Char)) (rest : List Char) :
    shSplit .norm cur ((shlexQuote s).toList ++ rest) =
      shSplit .norm (some (cur.getD [] ++ s.toList)) rest := by
  unfold shlexQuote
  by_cases h0 : s = ""
  · subst h0
    cases cur <;> simp +decide [shSplit]
  · rw [if_neg h0]
    by_cases hsafe : s.toList.all isSafeChar
    · rw [if_pos hsafe]
      have hplain : ∀ c ∈ s.toList, plainChar c := by
        intro c hc
        exact plainChar_of_safe (by
          have := List.all_eq_true.mp hsafe c hc
          simpa using this)
      have hne : s.toList ≠ [] := by
        intro hnil
        apply h0
        cases s with
        | mk data =>
          cases data with
          | nil => rfl
          | cons a l => simp [String.toList] at hnil
      cases cur with
      | none =>
        rw [shSplit_plainList_start s.toList hplain hne]
        simp
      | some w =>
        rw [shSplit_plainList s.toList w rest hplain]
        simp
    · rw [if_neg hsafe]
      have t1 : (String.mk (sqC :: (quoteBody s.toList ++ [sqC]))).toList =
          sqC :: (quoteBody s.toList ++ [sqC]) := rfl
      rw [t1, List.cons_append]
      have step1 : shSplit .norm cur (sqC :: ((quoteBody s.toList ++ [sqC]) ++ rest)) =
          shSplit .single (some (cur.getD [])) ((quoteBody s.toList ++ [sqC]) ++ rest) := by
        cases cur <;> simp +decide [shSplit]
      rw [step1, List.append_assoc, shSplit_quoteBody, List.singleton_append]
      simp +decide [shSplit]

theorem toList_ne_nil {s : String} (h : s ≠ "") : s.toList ≠ [] := by
  intro hnil
  apply h
  cases s with
  | mk data =>
    cases data with
    | nil => rfl
    | cons a l => simp [String.toList] at hnil

theorem shSplit_pieces (w : List Piece) :
    ∀ acc rest, (∀ p ∈ w, plainLit p) →
      shSplit .norm (some acc) (renderWord w ++ rest) =
        shSplit .norm (some (acc ++ wordVal w)) rest := by
  induction w with
  | nil => intro acc rest _; simp [renderWord, wordVal]
  | cons p w ih =>
    intro acc rest h
    cases p with
    | lit s =>
      simp only [renderWord, List.append_assoc]
      rw [shSplit_plainList s.toList acc _ (h (.lit s) (by simp))]
      rw [ih _ _ (fun q hq => h q (by simp [hq]))]
      simp [wordVal]
    | quoted s =>
      simp only [renderWord, List.append_assoc]
      rw [shSplit_quote s (some acc)]
      simp only [Option.getD_some]
      rw [ih _ _ (fun q hq => h q (by simp [hq]))]
      simp [wordVal]

theorem shSplit_word_start (w : List Piece) (h : ∀ p ∈ w, plainLit p)
    (he : engages w) (rest : List Char) :
    shSplit .norm none (renderWord w ++ rest) =
      shSplit .norm (some (wordVal w)) rest := by
  cases w with
  | nil => exact absurd he (by simp [engages])
  | cons p w =>
    cases p with
    | lit s =>
      simp only [renderWord, List.append_assoc]
      rw [shSplit_plainList_start s.toList (h (.lit s) (by simp))
        (toList_ne_nil he)]
      rw [shSplit_pieces w _ _ (fun q hq => h q (by simp [hq]))]
      simp [wordVal]
    | quoted s =>
      simp only [renderWord, List.append_assoc]
      rw [shSplit_quote s none]
      simp only [Option.getD_none, List.nil_append]
      rw [shSplit_pieces w _ _ (fun q hq => h q (by simp [hq]))]
      simp [wordVal]

theorem shSplit_words (ws : List (List Piece)) :
    (∀ w ∈ ws, (∀ p ∈ w, plainLit p) ∧ engages w) →
      shSplit .norm none (renderCmd ws) = some (ws.map wordVal) := by
  induction ws with
  | nil => intro _; simp [renderCmd, shSplit]
  | cons w ws ih =>
    intro h
    cases ws with
    | nil =>
      have := shSplit_word_start w (h w (by simp)).1 (h w (by simp)).2 []
      rw [List.append_nil] at this
      simp only [renderCmd, List.map]
      rw [this]
      simp [shSplit]
    | cons w2 ws2 =>
      simp only [renderCmd]
      rw [shSplit_word_start w (h w (by simp)).1 (h w (by simp)).2]
      rw [shSplit_space, ih (fun x hx => h x (by simp [hx]))]
      simp

theorem toList_append_str (a b : String) : (a ++ b).toList = a.toList ++ b.toList := by
  cases a; cases b; rfl

theorem toList_empty : ("" : String).toList = ([] : List Char) := rfl

theorem mk_append (a b : List Char) : String.mk (a ++ b) = String.mk a ++ String.mk b := rfl

theorem mk_toList (s : String) : String.mk s.toList = s := by cases s; rfl

theorem mk_data (s : String) : String.mk s.data = s := by cases s; rfl

/-- A word consisting of one quoted piece is well formed. -/
theorem good_quotedWord (s : String) :
    (∀ q ∈ [Piece.quoted s], plainLit q) ∧ engages [Piece.quoted s] := by
  refine ⟨?_, trivial⟩
  intro q hq
  simp only [List.mem_cons, List.not_mem_nil, or_false] at hq
  subst hq
  trivial

/-- The credential word `ANTHROPIC_API_KEY=<quoted key>` is well formed. -/
theorem good_keyWord (k : String) :
    (∀ q ∈ [Piece.lit "ANTHROPIC_API_KEY=", Piece.quoted k], plainLit q) ∧
      engages [Piece.lit "ANTHROPIC_API_KEY=", Piece.quoted k] := by
  have he : engages [Piece.lit "ANTHROPIC_API_KEY=", Piece.quoted k] := by
    show "ANTHROPIC_API_KEY=" ≠ ""
    decide
  refine ⟨?_, he⟩
  intro q hq
  simp only [List.mem_cons, List.not_mem_nil, or_false] at hq
  rcases hq with rfl | rfl
  · decide
  · trivial

/-- Every word of the rendered command has plain literals and engages the
splitter. -/
theorem cmdWords_good (k p : String) (i? : Option String) (c : Bool) :
    ∀ w ∈ cmdWords k p i? c, (∀ q ∈ w, plainLit q) ∧ engages w := by
  intro w hw
  simp only [cmdWords, List.mem_append] at hw
  rcases hw with (hw | hw) | hw
  · simp only [List.mem_cons, List.not_mem_nil, or_false] at hw
    rcases hw with rfl | rfl | rfl | rfl | rfl | rfl | rfl | rfl
    · exact good_keyWord k
    · exact ⟨by decide, by decide⟩
    · exact ⟨by decide, by decide⟩
    · exact ⟨by decide, by decide⟩
    · exact good_quotedWord p
    · exact ⟨by decide, by decide⟩
    · exact ⟨by decide, by decide⟩
    · exact ⟨by decide, by decide⟩
  · rcases i? with _ | i
    · simp [instrWords] at hw
    · by_cases hi : i = ""
      · subst hi; simp [instrWords] at hw
      · simp only [instrWords, if_pos hi, List.mem_cons, List.not_mem_nil,
          or_false] at hw
        rcases hw with rfl | rfl
        · exact ⟨by decide, by decide⟩
        · exact good_quotedWord i
  · cases c with
    | false => simp [contWords] at hw
    | true =>
      simp only [contWords, List.mem_cons, List.not_mem_nil, or_false] at hw
      subst hw
      exact ⟨by decide, by decide⟩

theorem expand_lit2 : " claude --dangerously-skip-permissions -p ".toList =
    [' '] ++ "claude".toList ++ [' '] ++ "--dangerously-skip-permissions".toList ++
      [' '] ++ "-p".toList ++ [' '] := by decide

theorem expand_lit3 : " --output-format stream-json --include-partial-messages".toList =
    [' '] ++ "--output-format".toList ++ [' '] ++ "stream-json".toList ++
      [' '] ++ "--include-partial-messages".toList := by decide

theorem expand_lit4 : " --append-system-prompt ".toList =
    [' '] ++ "--append-system-prompt".toList ++ [' '] := by decide

theorem expand_lit5 : " --continue".toList = [' '] ++ "--continue".toList := by decide

/-- The rendered command is exactly the rendering of its word list. -/
theorem buildCmd_words (k p : String) (i? : Option String) (cont : Bool) :
    (buildCmd k p i? cont).toList = renderCmd (cmdWords k p i? cont) := by
  rcases i? with _ | i
  · cases cont <;>
      simp only [buildCmd, optionalFlags, if_true, if_false, cmdWords,
        instrWords, contWords,
        toList_append_str, toList_empty, expand_lit2, expand_lit3, expand_lit5,
        renderCmd, renderWord, List.cons_append, List.nil_append, List.append_nil,
        List.append_assoc, List.singleton_append, Bool.false_eq_true, ite_false,
        ite_true]
  · by_cases hi : i = ""
    · subst hi
      cases cont <;>
        simp only [buildCmd, optionalFlags, cmdWords, instrWords, contWords,
          ne_eq, not_true_eq_false,
          if_false, ite_false, ite_true, toList_append_str, toList_empty,
          expand_lit2, expand_lit3, expand_lit5, renderCmd, renderWord,
          List.cons_append, List.nil_append, List.append_nil, List.append_assoc,
          List.singleton_append, Bool.false_eq_true]
    · cases cont <;>
        simp only [buildCmd, optionalFlags, cmdWords, instrWords, contWords,
          ne_eq, hi,
          not_false_eq_true, if_true, ite_true, ite_false, toList_append_str,
          toList_empty, expand_lit2, expand_lit3, expand_lit4, expand_lit5,
          renderCmd, renderWord, List.cons_append, List.nil_append,
          List.append_nil, List.append_assoc, List.singleton_append,
          Bool.false_eq_true]

theorem runEnsureCalls_stored (s : String) (calls : List (String × Bool)) :
    runEnsureCalls (some s) calls =
      (some s, [], calls.map (fun _ => Except.ok s)) := by
  induction calls with
  | nil => rfl
  | cons c rest ih =>
    obtain ⟨f, b⟩ := c
    simp [runEnsureCalls, ensureSession, ih]

/-! ### Structural lemmas about the line assembler -/

theorem extractLinesL_append (a b : List Char) :
    extractLinesL (a ++ b) =
      ((extractLinesL a).1 ++ (extractLinesL ((extractLinesL a).2 ++ b)).1,
       (extractLinesL ((extractLinesL a).2 ++ b)).2) := by
  induction a with
  | nil => simp [extractLinesL]
  | cons c a ih =>
    by_cases hc : c = nlC
    · subst hc
      simp only [List.cons_append, extractLinesL, if_pos rfl]
      simp [ih]
    · rcases h1 : (extractLinesL a).1 with _ | ⟨l, t⟩
      · rcases h2 : (extractLinesL ((extractLinesL a).2 ++ b)).1 with _ | ⟨m, u⟩
        · simp [List.cons_append, extractLinesL, if_neg hc, ih, h1, h2]
        · simp [List.cons_append, extractLinesL, if_neg hc, ih, h1, h2]
      · simp [List.cons_append, extractLinesL, if_neg hc, ih, h1]

theorem extractLinesL_no_nl {l : List Char} (h : nlC ∉ l) :
    extractLinesL l = ([], l) := by
  induction l with
  | nil => rfl
  | cons c cs ih =>
    have hc : c ≠ nlC := fun he => h (by simp [he])
    have hcs : nlC ∉ cs := fun hm => h (by simp [hm])
    simp [extractLinesL, hc, ih hcs]

theorem extractLinesL_res_no_nl (l : List Char) : nlC ∉ (extractLinesL l).2 := by
  induction l with
  | nil => simp [extractLinesL]
  | cons c cs ih =>
    by_cases hc : c = nlC
    · simp [extractLinesL, hc, ih]
    · rcases h1 : (extractLinesL cs).1 with _ | ⟨l', t⟩
      · simp only [extractLinesL, if_neg hc, h1]
        rw [List.mem_cons]
        rintro (he | hm)
        · exact hc he.symm
        · exact ih hm
      · simp [extractLinesL, hc, h1, ih]

theorem extractLinesL_line {l : List Char} (h : nlC ∉ l) (ys : List Char) :
    extractLinesL (l ++ nlC :: ys) =
      (l :: (extractLinesL ys).1, (extractLinesL ys).2) := by
  induction l with
  | nil => simp [extractLinesL]
  | cons c cs ih =>
    have hc : c ≠ nlC := fun he => h (by simp [he])
    have hcs : nlC ∉ cs := fun hm => h (by simp [hm])
    simp [List.cons_append, extractLinesL, if_neg hc, ih hcs]

theorem extract_join_lines (ls : List (List Char)) (h : ∀ l ∈ ls, nlC ∉ l) :
    extractLinesL ((ls.map (fun l => l ++ [nlC])).flatten) = (ls, []) := by
  induction ls with
  | nil => rfl
  | cons l ls ih =>
    simp only [List.map_cons, List.flatten_cons, List.append_assoc,
      List.singleton_append]
    rw [extractLinesL_line (h l (by simp)), ih (fun x hx => h x (by simp [hx]))]

theorem runChunksL_join {R : Type} (parse : String → Option R)
    (cs : List (List Char)) :
    ∀ residual, nlC ∉ residual →
      runChunksL parse residual cs =
        ((extractLinesL (residual ++ cs.flatten)).1.filterMap
            (fun l => lineRecord parse (String.mk l)),
         (extractLinesL (residual ++ cs.flatten)).2) := by
  induction cs with
  | nil =>
    intro r hr
    rw [List.flatten_nil, List.append_nil, extractLinesL_no_nl hr]
    simp [runChunksL]
  | cons c cs ih =>
    intro r hr
    simp only [runChunksL, parseLinesL, List.flatten_cons]
    rw [ih _ (extractLinesL_res_no_nl (r ++ c))]
    rw [← List.append_assoc, extractLinesL_append (r ++ c) cs.flatten]
    simp [List.filterMap_append]

theorem toList_join (l : List String) :
    (String.join l).toList = (l.map String.toList).flatten := by
  have aux : ∀ (l : List String) (s : String),
      (l.foldl (fun r t => r ++ t) s).toList =
        s.toList ++ (l.map String.toList).flatten := by
    intro l
    induction l with
    | nil => intro s; simp
    | cons c cs ih =>
      intro s
      simp only [List.foldl_cons, List.map_cons, List.flatten_cons]
      rw [ih, toList_append_str, List.append_assoc]
  rw [String.join, aux, toList_empty, List.nil_append]

/-- Claim C5: the command string built by `stream` embeds the prompt, the
instructions and the credential only as single shell-escaped tokens: for
every choice of these inputs the shell parses the command as one simple
command whose word list is the fixed `claude` argument vector, so no input
can alter the command structure or inject further commands. -/
theorem command_injection_safe (apiKey prompt : String)
    (instructions : Option String) (continueConversation : Bool) :
    shellSplit (buildCmd apiKey prompt instructions continueConversation) =
      some (expectedTokens apiKey prompt instructions continueConversation) := by
  unfold shellSplit
  rw [buildCmd_words, shSplit_words]
  · rcases instructions with _ | i
    · cases continueConversation <;>
        simp [cmdWords, instrWords, contWords, expectedTokens, wordVal,
          mk_append, mk_toList] <;>
        (cases apiKey; rfl)
    · by_cases hi : i = ""
      · subst hi
        cases continueConversation <;>
          simp [cmdWords, instrWords, contWords, expectedTokens, wordVal,
            mk_append, mk_toList] <;>
          (cases apiKey; rfl)
      · cases continueConversation <;>
          simp [cmdWords, instrWords, contWords, expectedTokens, wordVal,
            mk_append, mk_toList, hi] <;>
          (cases apiKey; rfl)
  · exact cmdWords_good apiKey prompt instructions continueConversation

theorem onStderr_flatten (errs : List String) : (errs.map onStderr).flatten = [] := by
  induction errs with
  | nil => rfl
  | cons e t ih => simp [onStderr, ih]

theorem map_toList_newline (ls : List String) :
    (ls.map (fun l => l ++ "\n")).map String.toList =
      (ls.map String.toList).map (fun l => l ++ [nlC]) := by
  induction ls with
  | nil => rfl
  | cons a t ih =>
    simp only [List.map_cons, ih, List.cons.injEq, and_true]
    rw [toList_append_str, show "\n".toList = [nlC] from by decide]

/-- Claim C6: the records the line assembler produces are invariant under
how the stdout text is chunked: feeding any chunk sequence produces
exactly the records of feeding the whole concatenated text in one chunk,
for every record parser. -/
theorem chunking_invariance (R : Type) (parse : String → Option R)
    (chunks : List String) :
    streamRecords parse chunks = streamRecords parse [String.join chunks] := by
  unfold streamRecords
  rw [runChunksL_join parse (chunks.map String.toList) [] (by simp),
    runChunksL_join parse ([String.join chunks].map String.toList) [] (by simp)]
  simp only [List.map_cons, List.map_nil, List.flatten_cons, List.flatten_nil,
    List.append_nil, List.nil_append, toList_join]

/-- Claim C7: for newline-terminated lines, the stream produces exactly
the records of the lines the parser accepts, in their original relative
order; blank lines and lines the parser rejects (malformed lines) are
dropped silently, and the assembler is a total function, so a malformed
line never raises or aborts the stream. -/
theorem malformed_lines_dropped (R : Type) (parse : String → Option R)
    (lines : List String) (h : ∀ l ∈ lines, nlC ∉ l.toList) :
    streamRecords parse [String.join (lines.map (fun l => l ++ "\n"))] =
      lines.filterMap (lineRecord parse) := by
  unfold streamRecords
  rw [runChunksL_join parse _ [] (by simp)]
  simp only [List.map_cons, List.map_nil, List.flatten_cons, List.flatten_nil,
    List.append_nil, List.nil_append]
  rw [toList_join, map_toList_newline,
    extract_join_lines (lines.map String.toList) ?hno]
  case hno =>
    intro l hl
    rcases List.mem_map.mp hl with ⟨l', hl', rfl⟩
    exact h l' hl'
  rw [List.filterMap_map]
  have : ((fun l => lineRecord parse (String.mk l)) ∘ String.toList) =
      lineRecord parse := by
    funext l
    simp [Function.comp, mk_toList]
  rw [this]

/-- Witness for C7 at a concrete input: a malformed line between two
valid records is dropped and the two records appear in order. -/
theorem malformed_lines_dropped_witness :
    streamRecords parseNum
        [String.join (["r1", "bad line", "r2"].map (fun l => l ++ "\n"))] =
      [1, 2] := by
  rw [malformed_lines_dropped Nat parseNum ["r1", "bad line", "r2"] (by decide)]
  decide

/-- Claim C10: a trailing stdout suffix not terminated by a newline is
silently discarded: it changes no record of the stream and merely sits in
the residual buffer when the log stream completes, even when the suffix
itself would parse as a valid record. -/
theorem trailing_suffix_discarded (R : Type) (parse : String → Option R)
    (chunks : List String) (suffix : String) (h : nlC ∉ suffix.toList) :
    streamRecords parse (chunks ++ [suffix]) = streamRecords parse chunks ∧
      streamResidual parse (chunks ++ [suffix]) =
        streamResidual parse chunks ++ suffix := by
  unfold streamRecords streamResidual
  rw [runChunksL_join parse ((chunks ++ [suffix]).map String.toList) [] (by simp),
    runChunksL_join parse (chunks.map String.toList) [] (by simp)]
  simp only [List.map_append, List.map_cons, List.map_nil, List.flatten_append,
    List.flatten_cons, List.flatten_nil, List.append_nil, List.nil_append]
  rw [extractLinesL_append ((chunks.map String.toList).flatten) suffix.toList]
  have hnn : nlC ∉ (extractLinesL ((chunks.map String.toList).flatten)).2 ++
      suffix.toList := by
    intro hm
    rcases List.mem_append.mp hm with hm | hm
    · exact extractLinesL_res_no_nl _ hm
    · exact h hm
  rw [extractLinesL_no_nl hnn]
  constructor
  · simp
  · simp [mk_append, mk_toList]

/-- Witness for C10 at a concrete input: the suffix `"b"` (which the
parser would accept as a record) produces no event and stays in the
residual buffer. -/
theorem trailing_suffix_discarded_witness :
    streamRecords parseAll ["a\n", "b"] = ["a"] ∧
      streamResidual parseAll ["a\n", "b"] = "b" := by
  have h := trailing_suffix_discarded String parseAll ["a\n"] "b" (by decide)
  exact ⟨h.1.trans (by decide), h.2.trans (by decide)⟩

/-- Claim C8: on one handle the session identifier is set exactly by the
first `_ensure_session` call, which performs the single `create_session`
call; every later call returns the identical stored identifier, performs
no further `create_session` call, and the identifier never changes. -/
theorem session_created_once (f0 : String) (rest : List (String × Bool)) :
    runEnsureCalls none ((f0, false) :: rest) =
      (some f0, [f0], Except.ok f0 :: rest.map (fun _ => Except.ok f0)) := by
  simp [runEnsureCalls, ensureSession, runEnsureCalls_stored]

/-- Counterexample to claim C4 as stated: when `create_session` raises,
the handle's session identifier is *not* left unset — it was assigned
before the remote call — and a later call performs no new
`create_session` attempt. -/
theorem session_id_set_despite_failure :
    (ensureSession none "maison-a" true).sid = some "maison-a" ∧
      (ensureSession none "maison-a" true).result = .error () ∧
      (ensureSession (some "maison-a") "maison-b" false).createCalls = [] :=
  ⟨rfl, rfl, rfl⟩

/-- Claim C4 (amended): if `create_session` raises, the failure
propagates unchanged with no retry, but the identifier was assigned
before the call and remains set, so a later call returns the stored
identifier without attempting session creation again. -/
theorem ensure_session_failure_keeps_id (fresh f2 : String) (b : Bool) :
    ensureSession none fresh true = ⟨some fresh, [fresh], .error ()⟩ ∧
      ensureSession (some fresh) f2 b = ⟨some fresh, [], .ok fresh⟩ :=
  ⟨rfl, rfl⟩

/-- Claim C2 evaluated against the code: with stderr text `"Error: boom"`
and one valid stdout record, the event sequence contains exactly the one
stdout event and no `stderr` event at all — the `_on_stderr` callback is
`pass`, so the stderr channel can never influence the events. -/
theorem stderr_never_synthesized :
    streamEvents parseDemo [demoLine ++ "\n"] ["Error: boom"] =
        [⟨JVal.str "text", [("type", JVal.str "text"), ("content", JVal.str "hi")]⟩] ∧
      (∀ (parse : String → Option JObj) (outs errs errs' : List String),
        streamEvents parse outs errs = streamEvents parse outs errs') := by
  constructor
  · decide
  · intro parse outs errs errs'
    simp [streamEvents, onStderr_flatten]

/-- Claim C1 evaluated against the code: the command built for the
failing input `stream("hi")` is exactly the plain `claude` invocation; it
contains no redirection character and no capture-file path at all. -/
theorem no_capture_redirection :
    buildCmd "sk-test-key" "hi" none false =
        "ANTHROPIC_API_KEY=sk-test-key claude --dangerously-skip-permissions -p hi --output-format stream-json --include-partial-messages" ∧
      '>' ∉ (buildCmd "sk-test-key" "hi" none false).toList ∧
      hasSubstr "/tmp/maison-".toList (buildCmd "sk-test-key" "hi" none false).toList
        = false := by
  refine ⟨by decide, by decide, by decide⟩

/-- Claim C3 evaluated against the code: every `stream` invocation issues
the execute-in-session call for the built command unconditionally — the
remote-call trace is exactly session creation, one
`execute_session_command` of the `claude` command, and the log follow;
there is no preflight (`which`-style) check anywhere, and the built
command itself contains no `which`. -/
theorem no_preflight_check :
    (∀ (freshSid apiKey prompt : String) (instructions : Option String)
        (cont : Bool) (cmdId : String),
      streamRemoteCalls none freshSid apiKey prompt instructions cont cmdId =
        [RemoteCall.createSession freshSid,
         RemoteCall.executeSessionCommand freshSid
           (buildCmd apiKey prompt instructions cont) true,
         RemoteCall.getSessionCommandLogs freshSid cmdId]) ∧
      hasSubstr "which".toList ((buildCmd "sk-test-key" "hi" none false).toList)
        = false := by
  constructor
  · intro freshSid apiKey prompt instructions cont cmdId
    rfl
  · decide

/-- Claim C9: when the install step reports a non-zero exit status,
bootstrap deletes the freshly provisioned environment exactly once and
then raises the installation error carrying the captured output. -/
theorem install_failure_deletes_env (akey : Option String) (env : String)
    (exitCode : Int) (out : String) (hk : resolveApiKey akey env ≠ "")
    (he : exitCode ≠ 0) :
    (createSandboxForClaude akey env exitCode out).actions =
        [.createEnv, .installCli, .deleteEnv] ∧
      (createSandboxForClaude akey env exitCode out).actions.count .deleteEnv = 1 ∧
      (createSandboxForClaude akey env exitCode out).outcome =
        .error (.installFailed out) := by
  simp only [createSandboxForClaude]
  rw [if_neg hk, if_pos he]
  exact ⟨rfl, rfl, rfl⟩

/-- Witness for C9 at a concrete input: exit status 1 with captured
output `"npm ERR! failed"`. -/
theorem install_failure_deletes_env_witness :
    (createSandboxForClaude (some "sk-test") "" 1 "npm ERR! failed").actions =
        [.createEnv, .installCli, .deleteEnv] ∧
      (createSandboxForClaude (some "sk-test") "" 1 "npm ERR! failed").actions.count
          .deleteEnv = 1 ∧
      (createSandboxForClaude (some "sk-test") "" 1 "npm ERR! failed").outcome =
        .error (.installFailed "npm ERR! failed") :=
  install_failure_deletes_env (some "sk-test") "" 1 "npm ERR! failed"
    (by decide) (by decide)
